import Mathlib

/-!
# Verification of the local fallback memory store

A shallow embedding of `LocalMemoryFallback` from `simple_memory.py`:
file-backed persistence (`store`, `get_all_local`) and naive substring
search with frequency scoring (`search_local`).  Python strings are
modelled as `List Char`, scores (Python floats obtained from `int / int`
true division) as exact rationals `ℚ`, and runtime exceptions
(`ZeroDivisionError`, `AttributeError`) as `Except String`.
-/

namespace SimpleMemory

/-! ## Python string primitives -/

/-- Python `str.lower()`, restricted to the ASCII case mapping
(`Char.toLower`), which agrees with Python on all ASCII content. -/
def lowerL (s : List Char) : List Char := s.map Char.toLower

/-- Tests whether `hay` begins with `needle`. -/
def startsWith : List Char → List Char → Bool
  | [], _ => true
  | _ :: _, [] => false
  | a :: as, b :: bs => a == b && startsWith as bs

/-- Python `needle in hay` substring containment (the empty string is a
substring of every string). -/
def containsSub (needle : List Char) : List Char → Bool
  | [] => needle.isEmpty
  | h :: t => startsWith needle (h :: t) || containsSub needle t

/-- Helper for `countOcc`: scan the haystack left to right; `skip > 0`
means we are still consuming the characters of a previously counted
occurrence (Python `str.count` counts non-overlapping occurrences). -/
def countOccAux (needle : List Char) : Nat → List Char → Nat
  | _, [] => 0
  | k + 1, _ :: t => countOccAux needle k t
  | 0, c :: t =>
    if startsWith needle (c :: t) then 1 + countOccAux needle (needle.length - 1) t
    else countOccAux needle 0 t

/-- Python `hay.count(needle)`: number of non-overlapping occurrences,
scanning left to right; for the empty needle Python returns `len + 1`. -/
def countOcc (needle hay : List Char) : Nat :=
  if needle.isEmpty then hay.length + 1 else countOccAux needle 0 hay

/-- The whitespace characters Python `str.split()` (no argument) splits
on, restricted to ASCII. -/
def isSpace (c : Char) : Bool :=
  c == ' ' || c == '\t' || c == '\n' || c == '\r' || c == '\x0b' || c == '\x0c'

/-- Accumulator form of Python `str.split()`: `cur` holds the reversed
characters of the word currently being scanned. -/
def splitAux (cur : List Char) : List Char → List (List Char)
  | [] => if cur.isEmpty then [] else [cur.reverse]
  | c :: t =>
    if isSpace c then
      if cur.isEmpty then splitAux [] t else cur.reverse :: splitAux [] t
    else splitAux (c :: cur) t

/-- Python `s.split()` with no argument: maximal runs of non-whitespace;
leading, trailing and repeated whitespace produce no empty words. -/
def pySplit (s : List Char) : List (List Char) := splitAux [] s

/-! ## Data model -/

/-- Metadata dictionaries; the store never inspects them, so string
key/value pairs suffice. -/
abbrev Metadata := List (String × String)

/-- One stored record, the dict built in `store()`:
`{'id': ..., 'content': ..., 'metadata': ..., 'timestamp': ...}`. -/
structure MemoryRecord where
  id : String
  content : String
  metadata : Metadata
  timestamp : String
deriving DecidableEq, Repr

/-- State of `memories.json` as `_load_memories` can observe it: absent,
present but not parseable as JSON (`json.load` raises), or a parsed
record list.  JSON serialization itself round-trips and is abstracted. -/
inductive FileState where
  | absent
  | corrupt
  | good (records : List MemoryRecord)
deriving DecidableEq, Repr

/-- Model of `_load_memories`: return the parsed list if the file exists and
parses; any `json.load` failure is caught by the bare `except` and the
empty list returned. -/
def loadMemories : FileState → List MemoryRecord
  | .absent => []
  | .corrupt => []
  | .good rs => rs

/-- Model of `_save_memories`: write the full list.  `writeFails` models the
`open`/`json.dump` call raising an I/O error; the `except` block catches
it and only prints, so the caller sees no failure.  A failed write may
leave the (truncated) file unparseable, modelled as `corrupt`.  The
second component collects what was printed. -/
def saveMemories (ms : List MemoryRecord) (writeFails : Bool) : FileState × List String :=
  if writeFails then (FileState.corrupt, ["Failed to save memories"])
  else (FileState.good ms, [])

/-- Whether `hasattr(Path, 'ctime')` holds: `pathlib.Path` has no
attribute `ctime` (timestamps live on `Path.stat()`), so this is
`False` in every Python version. -/
def pathHasCtime : Bool := false

/-- The timestamp expression in `store()`:
`str(Path.ctime(Path.now()) if hasattr(Path, 'ctime') else 'unknown')`.
Python evaluates the `hasattr` condition first; only if it were true
would the nonexistent `Path.now` be evaluated and raise. -/
def timestampExpr : Except String String :=
  if pathHasCtime then
    Except.error "AttributeError: type object Path has no attribute now"
  else Except.ok "unknown"

/-- Model of `store(content, metadata)`: load the current list, derive the id
from its length, append the new record, save, and return the id.  The
result also carries the new file state and anything printed. -/
def store (content : String) (metadata : Metadata) (writeFails : Bool) (fs : FileState) :
    Except String (String × FileState × List String) :=
  let memories := loadMemories fs
  let memoryId := "local_" ++ toString (memories.length + 1)
  match timestampExpr with
  | .error e => .error e
  | .ok ts =>
    let newMemory : MemoryRecord := ⟨memoryId, content, metadata, ts⟩
    let saved := saveMemories (memories ++ [newMemory]) writeFails
    .ok (memoryId, saved.1, saved.2)

/-! ## Search -/

/-- One search hit, the dict appended to `matches` in `search_local`. -/
structure SearchResult where
  content : String
  score : ℚ
  id : String
deriving DecidableEq, Repr

/-- The score expression
`content.count(query_lower) / len(content.split()) if content else 0`
on the lower-cased content: `0` for empty content; otherwise true
division, which raises `ZeroDivisionError` when the word count is
zero (non-empty all-whitespace content). -/
def scoreFor (content queryLower : List Char) : Except String ℚ :=
  if content.isEmpty then Except.ok 0
  else if (pySplit content).length = 0 then
    Except.error "ZeroDivisionError: division by zero"
  else Except.ok ((countOcc queryLower content : ℚ) / ((pySplit content).length : ℚ))

/-- The match-collection loop of `search_local`: keep every record whose
lower-cased content contains the lower-cased query, scored by
`scoreFor`; the first scoring failure propagates as the raised
exception. -/
def collectMatches (queryLower : List Char) :
    List MemoryRecord → Except String (List SearchResult)
  | [] => Except.ok []
  | m :: rest =>
    if containsSub queryLower (lowerL m.content.data) then
      match scoreFor (lowerL m.content.data) queryLower with
      | .error e => .error e
      | .ok score =>
        match collectMatches queryLower rest with
        | .error e => .error e
        | .ok tail => .ok (⟨m.content, score, m.id⟩ :: tail)
    else collectMatches queryLower rest

/-- The sort order of `matches.sort(key=lambda x: x['score'], reverse=True)`:
descending by score. -/
def scoreDescRel (a b : SearchResult) : Prop := b.score ≤ a.score

instance : DecidableRel scoreDescRel :=
  fun a b => inferInstanceAs (Decidable (b.score ≤ a.score))

/-- Python `list.sort(..., reverse=True)` is a stable descending sort;
stable sorting into a total preorder is extensionally unique, and
insertion sort with `scoreDescRel` is exactly that stable descending
sort (ties keep their original relative order). -/
def sortByScoreDesc (l : List SearchResult) : List SearchResult :=
  List.insertionSort scoreDescRel l

/-- Model of `search_local(query, limit)`: lower-case the query, collect and
score the matching records, sort descending by score, return the first
`limit`. -/
def searchLocal (query : String) (limit : Nat) (fs : FileState) :
    Except String (List SearchResult) :=
  match collectMatches (lowerL query.data) (loadMemories fs) with
  | .error e => .error e
  | .ok hits => .ok ((sortByScoreDesc hits).take limit)

/-- Model of `get_all_local()`: just `_load_memories()`. -/
def getAllLocal (fs : FileState) : List MemoryRecord := loadMemories fs

/-- Sequential `store()` calls (empty metadata, successful writes),
threading the file state; first component is the ids in call order.
The error branch is dead: `store` never fails (see `store_eq`). -/
def storeAll : List String → FileState → List String × FileState
  | [], fs => ([], fs)
  | c :: rest, fs =>
    match store c [] false fs with
    | .ok (mid, fs2, _) =>
      let next := storeAll rest fs2
      (mid :: next.1, next.2)
    | .error _ => ([], fs)

/-! ## Helper lemmas -/

/-- The `store` operation always succeeds: the timestamp guard is false so the dead
`Path.ctime` branch is never taken, and a failing write is swallowed by
`_save_memories`. -/
theorem store_eq (c : String) (md : Metadata) (wf : Bool) (fs : FileState) :
    store c md wf fs =
      Except.ok ("local_" ++ toString ((loadMemories fs).length + 1),
        saveMemories (loadMemories fs ++
          [⟨"local_" ++ toString ((loadMemories fs).length + 1), c, md, "unknown"⟩]) wf) := rfl

theorem saveMemories_ok (ms : List MemoryRecord) :
    saveMemories ms false = (FileState.good ms, []) := rfl

theorem saveMemories_fail (ms : List MemoryRecord) :
    saveMemories ms true = (FileState.corrupt, ["Failed to save memories"]) := rfl

/-- Inversion for a successful `searchLocal` call. -/
theorem searchLocal_ok_elim {q : String} {limit : Nat} {fs : FileState}
    {res : List SearchResult} (h : searchLocal q limit fs = Except.ok res) :
    ∃ hits, collectMatches (lowerL q.data) (loadMemories fs) = Except.ok hits ∧
      res = (sortByScoreDesc hits).take limit := by
  unfold searchLocal at h
  cases hh : collectMatches (lowerL q.data) (loadMemories fs) with
  | error e => rw [hh] at h; exact absurd h (by simp)
  | ok hits => rw [hh] at h; exact ⟨hits, rfl, by injection h with h; exact h.symm⟩

/-- A successful score is the spec formula: `0` for empty content,
otherwise occurrence count over word count. -/
theorem scoreFor_ok_elim {content ql : List Char} {sc : ℚ}
    (h : scoreFor content ql = Except.ok sc) :
    sc = if content.isEmpty then 0
      else (countOcc ql content : ℚ) / ((pySplit content).length : ℚ) := by
  unfold scoreFor at h
  by_cases h1 : content.isEmpty
  · rw [if_pos h1] at h
    injection h with h
    rw [if_pos h1]
    exact h.symm
  · rw [if_neg h1] at h
    by_cases h2 : (pySplit content).length = 0
    · rw [if_pos h2] at h
      exact absurd h (by simp)
    · rw [if_neg h2] at h
      injection h with h
      rw [if_neg h1]
      exact h.symm

/-- Every record that matches the query contributes exactly one scored
entry to the (pre-sort) match list of `search_local`. -/
theorem collectMatches_mem_of_match {ql : List Char} :
    ∀ {ms : List MemoryRecord} {ss : List SearchResult},
      collectMatches ql ms = Except.ok ss →
      ∀ m ∈ ms, containsSub ql (lowerL m.content.data) = true →
      ∃ sc, scoreFor (lowerL m.content.data) ql = Except.ok sc ∧
        (⟨m.content, sc, m.id⟩ : SearchResult) ∈ ss := by
  intro ms
  induction ms with
  | nil => intro ss _ m hm; simp at hm
  | cons a rest ih =>
    intro ss h m hm hc
    rw [collectMatches] at h
    by_cases hca : containsSub ql (lowerL a.content.data) = true
    · rw [if_pos hca] at h
      cases hsf : scoreFor (lowerL a.content.data) ql with
      | error e => rw [hsf] at h; exact absurd h (by simp)
      | ok sc =>
        rw [hsf] at h
        cases hcm : collectMatches ql rest with
        | error e => rw [hcm] at h; exact absurd h (by simp)
        | ok tail =>
          rw [hcm] at h
          simp only [Except.ok.injEq] at h
          subst h
          rcases List.mem_cons.mp hm with rfl | hm'
          · exact ⟨sc, hsf, List.mem_cons_self _ _⟩
          · obtain ⟨sc', h1, h2⟩ := ih hcm m hm' hc
            exact ⟨sc', h1, List.mem_cons_of_mem _ h2⟩
    · rw [if_neg hca] at h
      rcases List.mem_cons.mp hm with rfl | hm'
      · exact absurd hc hca
      · exact ih h m hm' hc

/-- Every entry of the (pre-sort) match list comes from a stored record
that matches the query, carrying that record's content and id and a
successfully computed score. -/
theorem collectMatches_sound {ql : List Char} :
    ∀ {ms : List MemoryRecord} {ss : List SearchResult},
      collectMatches ql ms = Except.ok ss →
      ∀ r ∈ ss, ∃ m ∈ ms, r.content = m.content ∧ r.id = m.id ∧
        containsSub ql (lowerL m.content.data) = true ∧
        scoreFor (lowerL m.content.data) ql = Except.ok r.score := by
  intro ms
  induction ms with
  | nil =>
    intro ss h r hr
    rw [collectMatches] at h
    simp only [Except.ok.injEq] at h
    subst h; simp at hr
  | cons a rest ih =>
    intro ss h r hr
    rw [collectMatches] at h
    by_cases hca : containsSub ql (lowerL a.content.data) = true
    · rw [if_pos hca] at h
      cases hsf : scoreFor (lowerL a.content.data) ql with
      | error e => rw [hsf] at h; exact absurd h (by simp)
      | ok sc =>
        rw [hsf] at h
        cases hcm : collectMatches ql rest with
        | error e => rw [hcm] at h; exact absurd h (by simp)
        | ok tail =>
          rw [hcm] at h
          simp only [Except.ok.injEq] at h
          subst h
          rcases List.mem_cons.mp hr with rfl | hr'
          · exact ⟨a, List.mem_cons_self _ _, rfl, rfl, hca, hsf⟩
          · obtain ⟨m, h1, h2, h3, h4, h5⟩ := ih hcm r hr'
            exact ⟨m, List.mem_cons_of_mem _ h1, h2, h3, h4, h5⟩
    · rw [if_neg hca] at h
      obtain ⟨m, h1, h2, h3, h4, h5⟩ := ih h r hr
      exact ⟨m, List.mem_cons_of_mem _ h1, h2, h3, h4, h5⟩

instance : IsTotal SearchResult scoreDescRel := ⟨fun a b => le_total b.score a.score⟩

instance : IsTrans SearchResult scoreDescRel := ⟨fun _ _ _ h1 h2 => le_trans h2 h1⟩

/-- Ids produced by sequential stores on a parsed store of `rs.length`
records: `local_(|rs|+1), local_(|rs|+2), ...`. -/
theorem storeAll_ids (cs : List String) :
    ∀ rs : List MemoryRecord,
      (storeAll cs (FileState.good rs)).1 =
        (List.range cs.length).map (fun i => "local_" ++ toString (rs.length + i + 1)) := by
  induction cs with
  | nil => intro rs; simp [storeAll]
  | cons c rest ih =>
    intro rs
    have hst := store_eq c [] false (FileState.good rs)
    rw [saveMemories_ok] at hst
    simp only [storeAll, hst, List.length_cons, List.range_succ_eq_map, List.map_cons,
      List.map_map]
    refine List.cons_eq_cons.mpr ⟨?_, ?_⟩
    · simp only [loadMemories]
    · rw [ih]
      simp only [List.length_append, List.length_cons, List.length_nil, loadMemories]
      refine List.map_congr_left fun i _ => ?_
      simp only [Function.comp_apply]
      congr 2
      omega

/-- Filtering a fixed score out of an `orderedInsert`: the skipped
elements all have strictly larger score, so the inserted element lands
in front of exactly the equal-scored ones. -/
theorem filter_score_orderedInsert (s : ℚ) (a : SearchResult) :
    ∀ l : List SearchResult,
      (List.orderedInsert scoreDescRel a l).filter (fun r => decide (r.score = s)) =
        if a.score = s then a :: l.filter (fun r => decide (r.score = s))
        else l.filter (fun r => decide (r.score = s)) := by
  intro l
  induction l with
  | nil =>
    by_cases ha : a.score = s
    · simp [List.orderedInsert, List.filter, ha]
    · simp [List.orderedInsert, List.filter, ha]
  | cons b t ih =>
    rw [List.orderedInsert]
    by_cases hr : scoreDescRel a b
    · rw [if_pos hr]
      by_cases ha : a.score = s
      · simp [List.filter_cons, ha]
      · simp [List.filter_cons, ha]
    · rw [if_neg hr]
      have hlt : a.score < b.score := lt_of_not_le hr
      rw [List.filter_cons, List.filter_cons, ih]
      by_cases ha : a.score = s
      · have hb : ¬ b.score = s := fun hb => absurd (ha ▸ hb ▸ hlt) (lt_irrefl _)
        simp [ha, hb]
      · by_cases hb : b.score = s
        · simp [ha, hb]
        · simp [ha, hb]

/-- Insertion sort with `scoreDescRel` is stable: the sublist of any
fixed score is untouched. -/
theorem filter_score_insertionSort (s : ℚ) :
    ∀ l : List SearchResult,
      (List.insertionSort scoreDescRel l).filter (fun r => decide (r.score = s)) =
        l.filter (fun r => decide (r.score = s)) := by
  intro l
  induction l with
  | nil => rfl
  | cons a t ih =>
    rw [List.insertionSort, filter_score_orderedInsert, List.filter_cons]
    by_cases ha : a.score = s
    · rw [if_pos ha, ih]; simp [ha]
    · rw [if_neg ha, ih]; simp [ha]

/-! ## Claims -/

/-- C1 counterexample: the React scenario from the spec scores `1/9`,
not `1/8` — the content has 9 whitespace-separated words. -/
theorem claim_C1_counterexample :
    searchLocal "frontend" 5
      (FileState.good
        [⟨"local_1", "We decided to use React for the frontend framework", [], "unknown"⟩]) =
      Except.ok
        [⟨"We decided to use React for the frontend framework", 1/9, "local_1"⟩] ∧
    (pySplit (lowerL "We decided to use React for the frontend framework".data)).length = 9 ∧
    (1 : ℚ)/9 ≠ 1/8 :=
  ⟨rfl, rfl, by norm_num⟩

/-- C1 amended: every stored record whose lower-cased content contains
the lower-cased query is scored `occurrences / word_count` (`0` for
empty content); `"alpha beta alpha"` with query `"alpha"` scores `2/3`,
and the React scenario scores `1/9 ≈ 0.111` (9 words, not 8). -/
theorem claim_C1_score_formula :
    (∀ (ql : List Char) (ms : List MemoryRecord) (ss : List SearchResult),
      collectMatches ql ms = Except.ok ss →
      ∀ m ∈ ms, containsSub ql (lowerL m.content.data) = true →
        (⟨m.content,
          if (lowerL m.content.data).isEmpty then 0
          else (countOcc ql (lowerL m.content.data) : ℚ) /
            ((pySplit (lowerL m.content.data)).length : ℚ),
          m.id⟩ : SearchResult) ∈ ss) ∧
    searchLocal "alpha" 5
      (FileState.good [⟨"local_1", "alpha beta alpha", [], "unknown"⟩]) =
      Except.ok [⟨"alpha beta alpha", 2/3, "local_1"⟩] ∧
    searchLocal "frontend" 5
      (FileState.good
        [⟨"local_1", "We decided to use React for the frontend framework", [], "unknown"⟩]) =
      Except.ok
        [⟨"We decided to use React for the frontend framework", 1/9, "local_1"⟩] := by
  refine ⟨?_, rfl, rfl⟩
  intro ql ms ss h m hm hc
  obtain ⟨sc, h1, h2⟩ := collectMatches_mem_of_match h m hm hc
  rwa [scoreFor_ok_elim h1] at h2

/-- C1 witness: the general formula applied to the alpha scenario. -/
theorem claim_C1_score_formula_witness :
    (⟨"alpha beta alpha",
      if (lowerL "alpha beta alpha".data).isEmpty then 0
      else (countOcc (lowerL "alpha".data) (lowerL "alpha beta alpha".data) : ℚ) /
        ((pySplit (lowerL "alpha beta alpha".data)).length : ℚ),
      "local_1"⟩ : SearchResult) ∈
      [(⟨"alpha beta alpha", 2/3, "local_1"⟩ : SearchResult)] :=
  claim_C1_score_formula.1 (lowerL "alpha".data)
    [⟨"local_1", "alpha beta alpha", [], "unknown"⟩]
    [⟨"alpha beta alpha", 2/3, "local_1"⟩] rfl
    ⟨"local_1", "alpha beta alpha", [], "unknown"⟩ (by simp) rfl

/-- C2: `searchLocal` never returns a record whose lower-cased content
does not contain the lower-cased query as a substring; non-matching
records are excluded entirely. -/
theorem claim_C2_search_exclusion :
    ∀ (q : String) (limit : Nat) (fs : FileState) (res : List SearchResult),
      searchLocal q limit fs = Except.ok res →
      ∀ r ∈ res, containsSub (lowerL q.data) (lowerL r.content.data) = true := by
  intro q limit fs res h r hr
  obtain ⟨hits, hh, rfl⟩ := searchLocal_ok_elim h
  have hr' : r ∈ hits := by
    have hmem := List.take_subset limit (sortByScoreDesc hits) hr
    rwa [sortByScoreDesc, List.mem_insertionSort] at hmem
  obtain ⟨m, _, h2, _, h4, _⟩ := collectMatches_sound hh r hr'
  rwa [h2]

/-- C2 witness at a concrete store and query. -/
theorem claim_C2_search_exclusion_witness :
    containsSub (lowerL "alpha".data) (lowerL "alpha beta alpha".data) = true :=
  claim_C2_search_exclusion "alpha" 5
    (FileState.good [⟨"local_1", "alpha beta alpha", [], "unknown"⟩])
    [⟨"alpha beta alpha", 2/3, "local_1"⟩] rfl
    ⟨"alpha beta alpha", 2/3, "local_1"⟩ (by simp)

/-- C3: a successful `searchLocal` result is sorted in descending order
of score and contains at most `limit` elements (the first `limit` after
sorting). -/
theorem claim_C3_sorted_and_limited :
    ∀ (q : String) (limit : Nat) (fs : FileState) (res : List SearchResult),
      searchLocal q limit fs = Except.ok res →
      List.Sorted scoreDescRel res ∧ res.length ≤ limit := by
  intro q limit fs res h
  obtain ⟨hits, _, rfl⟩ := searchLocal_ok_elim h
  constructor
  · exact List.Pairwise.sublist (List.take_sublist _ _)
      (List.sorted_insertionSort scoreDescRel hits)
  · exact List.length_take_le _ _

/-- C3 witness: three matching records, `limit = 2`. -/
theorem claim_C3_sorted_and_limited_witness :
    List.Sorted scoreDescRel
      [(⟨"a", 1, "local_1"⟩ : SearchResult), ⟨"b a", 1/2, "local_2"⟩] ∧
    ([(⟨"a", 1, "local_1"⟩ : SearchResult), ⟨"b a", 1/2, "local_2"⟩]).length ≤ 2 :=
  claim_C3_sorted_and_limited "a" 2
    (FileState.good [⟨"local_1", "a", [], "unknown"⟩, ⟨"local_2", "b a", [], "unknown"⟩,
      ⟨"local_3", "c a", [], "unknown"⟩])
    [⟨"a", 1, "local_1"⟩, ⟨"b a", 1/2, "local_2"⟩] (by with_unfolding_all rfl)

/-- C6: when the store file is absent or fails to parse as JSON, every
load behaves as if the store were empty: `getAll()` returns the empty
sequence with no failure raised, and `searchLocal` succeeds with no
results; the parse failure is swallowed, not surfaced. -/
theorem claim_C6_fail_open :
    loadMemories FileState.absent = [] ∧ loadMemories FileState.corrupt = [] ∧
    getAllLocal FileState.absent = [] ∧ getAllLocal FileState.corrupt = [] ∧
    ∀ (q : String) (limit : Nat),
      searchLocal q limit FileState.absent = Except.ok [] ∧
      searchLocal q limit FileState.corrupt = Except.ok [] := by
  refine ⟨rfl, rfl, rfl, rfl, fun q limit => ⟨?_, ?_⟩⟩ <;>
    simp [searchLocal, collectMatches, loadMemories, sortByScoreDesc, List.insertionSort]

/-- C7 counterexample: a `store` call whose file write fails (the
`open`/`json.dump` raises) still returns the new record's id as a
success result — `_save_memories` catches the exception and only
prints, so the failure is never reported to the caller. -/
theorem claim_C7_counterexample :
    store "x" [] true FileState.absent =
      Except.ok ("local_1", FileState.corrupt, ["Failed to save memories"]) := rfl

/-- C7 amended: when writing the record file fails with an I/O error,
`store` swallows the failure (an error message is printed) and still
returns the new record's id as a success result; there is no retry. -/
theorem claim_C7_swallowed_write_failure :
    ∀ (c : String) (md : Metadata) (fs : FileState),
      store c md true fs =
        Except.ok ("local_" ++ toString ((loadMemories fs).length + 1),
          FileState.corrupt, ["Failed to save memories"]) :=
  fun _ _ _ => rfl

/-- C8 counterexample: a concrete `store` call completes successfully
(returning the new id) rather than failing at runtime, refuting the
claim that every call raises from the timestamp path. -/
theorem claim_C8_counterexample :
    store "x" [] false FileState.absent =
      Except.ok ("local_1",
        FileState.good [⟨"local_1", "x", [], "unknown"⟩], []) := rfl

/-- C8 amended: the timestamp expression references the nonexistent
`Path.ctime`/`Path.now` combination, but its `hasattr(Path, 'ctime')`
guard is `False`, so the dead branch is never evaluated: every `store`
call completes (with timestamp `'unknown'`) instead of raising. -/
theorem claim_C8_dead_timestamp_branch :
    pathHasCtime = false ∧ timestampExpr = Except.ok "unknown" ∧
    ∀ (c : String) (md : Metadata) (wf : Bool) (fs : FileState),
      ∃ out, store c md wf fs = Except.ok out :=
  ⟨rfl, rfl, fun c md wf fs => ⟨_, store_eq c md wf fs⟩⟩

/-- C10: the score computation is not total — a stored record whose
content is non-empty but all whitespace (here a single space) matched
by a query occurring in it (the space itself, or the empty query) has
word count zero, and the score division raises `ZeroDivisionError`;
the `if content` guard only covers the empty-string content case,
which scores `0` without dividing. -/
theorem claim_C10_division_by_zero :
    containsSub (lowerL " ".data) (lowerL " ".data) = true ∧
    pySplit (lowerL " ".data) = [] ∧
    searchLocal " " 5 (FileState.good [⟨"local_1", " ", [], "unknown"⟩]) =
      Except.error "ZeroDivisionError: division by zero" ∧
    searchLocal "" 5 (FileState.good [⟨"local_1", " ", [], "unknown"⟩]) =
      Except.error "ZeroDivisionError: division by zero" ∧
    scoreFor [] (lowerL " ".data) = Except.ok 0 :=
  ⟨rfl, rfl, rfl, rfl, rfl⟩

/-- C4: `store` computes the new id as `"local_"` followed by the
current record count plus one and appends the record at the end of the
persisted list; sequential calls from an empty store therefore produce
the ids `local_1, local_2, local_3, ...`, whose numeric suffixes are
strictly increasing. -/
theorem claim_C4_id_generation :
    (∀ (c : String) (md : Metadata) (wf : Bool) (fs : FileState) (mid : String)
       (rest : FileState × List String),
      store c md wf fs = Except.ok (mid, rest) →
      mid = "local_" ++ toString ((loadMemories fs).length + 1)) ∧
    (∀ (c : String) (md : Metadata) (fs : FileState) (mid : String)
       (fs2 : FileState) (pr : List String),
      store c md false fs = Except.ok (mid, fs2, pr) →
      fs2 = FileState.good (loadMemories fs ++ [⟨mid, c, md, "unknown"⟩])) ∧
    (∀ cs : List String,
      (storeAll cs (FileState.good [])).1 =
        (List.range cs.length).map (fun i => "local_" ++ toString (i + 1))) := by
  refine ⟨?_, ?_, ?_⟩
  · intro c md wf fs mid rest h
    rw [store_eq] at h
    simp only [Except.ok.injEq, Prod.mk.injEq] at h
    exact h.1.symm
  · intro c md fs mid fs2 pr h
    rw [store_eq, saveMemories_ok] at h
    simp only [Except.ok.injEq, Prod.mk.injEq] at h
    obtain ⟨h1, h2, _⟩ := h
    rw [← h1, ← h2]
  · intro cs
    have := storeAll_ids cs []
    simpa using this

/-- C4 witness: the first store on an empty (absent-file) state gets id
`local_1`. -/
theorem claim_C4_id_generation_witness :
    "local_1" = "local_" ++ toString ((loadMemories FileState.absent).length + 1) :=
  claim_C4_id_generation.1 "x" [] false FileState.absent "local_1"
    (FileState.good [⟨"local_1", "x", [], "unknown"⟩], []) rfl

/-- C5: after a successful `store` with no concurrent writer, `getAll`
is exactly one element longer, its last element is the newly stored
record (with the given content and metadata), and that record is
visible to subsequent `searchLocal` calls: any query it matches finds
it in the scored match list. -/
theorem claim_C5_store_then_visible :
    ∀ (c : String) (md : Metadata) (fs : FileState) (mid : String)
      (fs2 : FileState) (pr : List String),
      store c md false fs = Except.ok (mid, fs2, pr) →
      getAllLocal fs2 = getAllLocal fs ++ [⟨mid, c, md, "unknown"⟩] ∧
      (getAllLocal fs2).length = (getAllLocal fs).length + 1 ∧
      (getAllLocal fs2).getLast? = some ⟨mid, c, md, "unknown"⟩ ∧
      ∀ (ql : List Char) (ss : List SearchResult),
        containsSub ql (lowerL c.data) = true →
        collectMatches ql (loadMemories fs2) = Except.ok ss →
        ∃ r ∈ ss, r.content = c ∧ r.id = mid := by
  intro c md fs mid fs2 pr h
  rw [store_eq, saveMemories_ok] at h
  simp only [Except.ok.injEq, Prod.mk.injEq] at h
  obtain ⟨h1, h2, _⟩ := h
  subst h1 h2
  refine ⟨rfl, by simp [getAllLocal, loadMemories], by simp [getAllLocal, loadMemories], ?_⟩
  intro ql ss hqc hcm
  have hmem :
      (⟨"local_" ++ toString ((loadMemories fs).length + 1), c, md, "unknown"⟩ : MemoryRecord) ∈
        loadMemories
          (FileState.good (loadMemories fs ++
            [⟨"local_" ++ toString ((loadMemories fs).length + 1), c, md, "unknown"⟩])) :=
    List.mem_append_right _ (List.mem_singleton.mpr rfl)
  obtain ⟨sc, _, hin⟩ := collectMatches_mem_of_match hcm _ hmem hqc
  exact ⟨_, hin, rfl, rfl⟩

/-- C5 witness: one store on the empty state. -/
theorem claim_C5_store_then_visible_witness :
    getAllLocal (FileState.good [⟨"local_1", "x", [], "unknown"⟩]) =
      getAllLocal FileState.absent ++ [⟨"local_1", "x", [], "unknown"⟩] :=
  (claim_C5_store_then_visible "x" [] FileState.absent "local_1"
    (FileState.good [⟨"local_1", "x", [], "unknown"⟩]) [] rfl).1

/-- C9: the sort in `search_local` is stable, so any two returned
results of equal score appear in the same relative order as in the
pre-sort match list, which lists the matching records in stored-file
(insertion) order. -/
theorem claim_C9_stable_tie_break :
    ∀ (q : String) (limit : Nat) (fs : FileState)
      (hits res : List SearchResult) (s : ℚ),
      collectMatches (lowerL q.data) (loadMemories fs) = Except.ok hits →
      searchLocal q limit fs = Except.ok res →
      List.Sublist (res.filter (fun r => decide (r.score = s)))
        (hits.filter (fun r => decide (r.score = s))) := by
  intro q limit fs hits res s hc h
  obtain ⟨hits', hc', rfl⟩ := searchLocal_ok_elim h
  rw [hc] at hc'
  injection hc' with he
  subst he
  have h1 : List.Sublist
      (((sortByScoreDesc hits).take limit).filter (fun r => decide (r.score = s)))
      ((sortByScoreDesc hits).filter (fun r => decide (r.score = s))) :=
    List.Sublist.filter _ (List.take_sublist _ _)
  rwa [sortByScoreDesc, filter_score_insertionSort] at h1

/-- C9 witness: two records tied at score `1/2` stay in insertion
order. -/
theorem claim_C9_stable_tie_break_witness :
    List.Sublist
      ([(⟨"b a", 1/2, "local_1"⟩ : SearchResult),
        ⟨"c a", 1/2, "local_2"⟩].filter (fun r => decide (r.score = 1/2)))
      ([(⟨"b a", 1/2, "local_1"⟩ : SearchResult),
        ⟨"c a", 1/2, "local_2"⟩].filter (fun r => decide (r.score = 1/2))) :=
  claim_C9_stable_tie_break "a" 5
    (FileState.good [⟨"local_1", "b a", [], "unknown"⟩, ⟨"local_2", "c a", [], "unknown"⟩])
    [⟨"b a", 1/2, "local_1"⟩, ⟨"c a", 1/2, "local_2"⟩]
    [⟨"b a", 1/2, "local_1"⟩, ⟨"c a", 1/2, "local_2"⟩] (1/2)
    (by with_unfolding_all rfl) (by with_unfolding_all rfl)

end SimpleMemory
